import Mathlib

/-!
Verification development for the `http-status-check` crawler (src/main.rs).

The crawler keeps a FIFO frontier (`pending : VecDeque<String>`) and a ledger
(`responses : HashMap<String, Response>`).  We embed the program shallowly:

* Rust strings are modelled as `List Char` (abbreviated `Str`);
* the `HashMap` is modelled as an association list in insertion order
  (the code only ever inserts a key that is absent, so lookup semantics agree);
* the external `url` crate (an external collaborator of the program) is
  modelled by a small concrete parser `Url.parse` covering exactly the
  distinctions the program observes: success with a host/domain, failure with
  `RelativeUrlWithoutBase`, and any other failure (represented by `EmptyHost`);
* the HTTP transport and the HTML `href` extractor are external collaborators;
  a fetched response is modelled by its final resolved URL, its status code and
  either the list of extracted `href` strings or a body-decoding failure.
-/

abbrev Str := List Char

/-- Mirrors `struct Response` (main.rs:39-45): the per-URL record, holding the
reference count and the last observed HTTP status code. -/
structure Response where
  count : Nat
  status : Nat
deriving DecidableEq

/-- Mirrors `Response::new` (main.rs:49-51). -/
def Response.new (status : Nat) (count : Nat) : Response :=
  { status := status, count := count }

/-- Mirrors `Response::increment_by` (main.rs:59-61). -/
def Response.increment_by (r : Response) (value : Nat) : Response :=
  { r with count := r.count + value }

/-- Mirrors `Response::increment` (main.rs:54-56). -/
def Response.increment (r : Response) : Response :=
  r.increment_by 1

/-- Mirrors `Response::set_status` (main.rs:64-66). -/
def Response.set_status (r : Response) (status : Nat) : Response :=
  { r with status := status }

/-- Model of the external `url` crate's parse errors, at the granularity the
program observes (main.rs:170-173): the `RelativeUrlWithoutBase` variant is
matched explicitly; every other variant is treated uniformly, represented here
by `EmptyHost`. -/
inductive ParseError where
  | RelativeUrlWithoutBase
  | EmptyHost
deriving DecidableEq

/-- Model of a parsed absolute URL from the external `url` crate: scheme,
host, path, optional query and optional fragment. -/
structure Url where
  scheme : Str
  host : Str
  path : Str
  query : Option Str
  fragment : Option Str
deriving DecidableEq

/-- True for `?` and `#`, the characters that end the path portion. -/
def isQF (c : Char) : Bool := c == '?' || c == '#'

/-- True for the characters that end the host portion of a URL. -/
def isPathDelim (c : Char) : Bool := c == '/' || isQF c

/-- Splits a string at its first occurrence of `://`, returning the part
before (the scheme candidate) and the part after. -/
def breakScheme : Str → Option (Str × Str)
  | [] => none
  | c :: rest =>
    if c = ':' ∧ rest.take 2 = ['/', '/'] then some ([], rest.drop 2)
    else
      match breakScheme rest with
      | none => none
      | some (a, b) => some (c :: a, b)

/-- Path portion of the part of a URL that follows the host: the characters up
to the first `?` or `#`, defaulting to `/` when empty. -/
def pathPart (r : Str) : Str :=
  let p := r.takeWhile (fun c => !(isQF c))
  if p = [] then ['/'] else p

/-- Query portion of the part of a URL that follows the host. -/
def queryPart (r : Str) : Option Str :=
  match r.dropWhile (fun c => !(isQF c)) with
  | '?' :: t => some (t.takeWhile (fun c => !(c == '#')))
  | _ => none

/-- Fragment portion of the part of a URL that follows the host. -/
def fragPart (r : Str) : Option Str :=
  match r.dropWhile (fun c => !(c == '#')) with
  | '#' :: t => some t
  | _ => none

/-- Model of `Url::parse` from the external `url` crate: a string parses when
it has a nonempty scheme (free of `:` and `/`) followed by `://` and a
nonempty host; a string without such a scheme prefix fails with
`RelativeUrlWithoutBase`, and an empty host is the representative of every
other parse failure. -/
def Url.parse (s : Str) : Except ParseError Url :=
  match breakScheme s with
  | none => .error .RelativeUrlWithoutBase
  | some (scheme, rest) =>
    if scheme.isEmpty || scheme.any (fun c => c == ':' || c == '/') then
      .error .RelativeUrlWithoutBase
    else if rest.takeWhile (fun c => !(isPathDelim c)) = [] then
      .error .EmptyHost
    else
      .ok { scheme := scheme,
            host := rest.takeWhile (fun c => !(isPathDelim c)),
            path := pathPart (rest.dropWhile (fun c => !(isPathDelim c))),
            query := queryPart (rest.dropWhile (fun c => !(isPathDelim c))),
            fragment := fragPart (rest.dropWhile (fun c => !(isPathDelim c))) }

/-- Model of the `url` crate's `Url::to_string`. -/
def Url.toStr (u : Url) : Str :=
  u.scheme ++ [':', '/', '/'] ++ u.host ++ u.path ++
    (match u.query with | none => [] | some q => '?' :: q) ++
    (match u.fragment with | none => [] | some f => '#' :: f)

/-- Model of the `url` crate's `Url::domain`. -/
def Url.domain (u : Url) : Option Str :=
  if u.host = [] then none else some u.host

/-- Model of the `url` crate's `Url::join` for the only shape the program uses
(main.rs:142): joining a root-relative reference (starting with `/`) onto a
base, which keeps scheme and host and replaces path, query and fragment. -/
def Url.join (base : Url) (s : Str) : Option Url :=
  if s.head? = some '/' then
    some { base with path := pathPart s, query := queryPart s, fragment := fragPart s }
  else none

/-- Mirrors `struct Opts` (main.rs:15-32): the CLI configuration. -/
structure Opts where
  entrypoint : Str
  restrict_on_domain : Bool
  limit : Nat
deriving DecidableEq

/-- Mirrors `struct Crawler` (main.rs:72-78): base URL, options, the pending
frontier (FIFO) and the responses ledger (modelled as an association list in
insertion order; the code inserts a key only when it is absent). -/
structure Crawler where
  base : Url
  opts : Opts
  pending : List Str
  responses : List (Str × Response)
deriving DecidableEq

/-- Lookup in the responses ledger, mirroring `HashMap::get` /
`HashMap::get_mut` on the association-list model. -/
def lookupResp : List (Str × Response) → Str → Option Response
  | [], _ => none
  | (k, v) :: rest, key => if k = key then some v else lookupResp rest key

/-- In-place update of the record at a key, mirroring mutation through
`HashMap::get_mut`. -/
def updateResp : List (Str × Response) → Str → (Response → Response) → List (Str × Response)
  | [], _, _ => []
  | (k, v) :: rest, key, f =>
    if k = key then (k, f v) :: rest else (k, v) :: updateResp rest key f

/-- Number of ledger entries whose key is `key` (the ledger "contains exactly
one record" for a URL when this is 1). -/
def countKey (m : List (Str × Response)) (key : Str) : Nat :=
  (m.filter (fun p => decide (p.1 = key))).length

/-- Mirrors `Crawler::format_url` (main.rs:138-150): a root-relative URL is
joined onto the base (falling back to naive concatenation if joining fails);
anything else is returned unchanged. -/
def Crawler.format_url (c : Crawler) (url : Str) : Str :=
  if url.head? = some '/' then
    match c.base.join url with
    | some full => full.toStr
    | none => c.base.toStr ++ url
  else url

/-- Mirrors `Crawler::is_excluded` (main.rs:153-175).  Returns the decision
together with the (possibly mutated) crawler, since the duplicate branch
increments the existing record's count through `get_mut`. -/
def Crawler.is_excluded (c : Crawler) (url : Str) : Bool × Crawler :=
  if c.opts.limit > 0 ∧ c.responses.length ≥ c.opts.limit then
    (true, c)
  else
    match lookupResp c.responses url with
    | some _ => (true, { c with responses := updateResp c.responses url Response.increment })
    | none =>
      match Url.parse url with
      | .ok entry => (c.opts.restrict_on_domain && decide (entry.domain ≠ c.base.domain), c)
      | .error e =>
        match e with
        | .RelativeUrlWithoutBase => (false, c)
        | _ => (true, c)

/-- The pure decision of the third phase of `Crawler::is_excluded`
(main.rs:163-174): parse the URL; on success exclude exactly when the domain
restriction is on and the domain differs from the base's; admit on a
relative-without-base parse error; exclude on any other parse error. -/
def parseDecision (c : Crawler) (url : Str) : Bool :=
  match Url.parse url with
  | .ok entry => c.opts.restrict_on_domain && decide (entry.domain ≠ c.base.domain)
  | .error .RelativeUrlWithoutBase => false
  | .error _ => true

/-- Well-formedness of a `Url`, as established by `Url.parse`: nonempty
scheme free of `:` and `/`, nonempty host free of path delimiters, and a path
starting with `/` and free of `?` and `#`. -/
structure UrlWF (u : Url) : Prop where
  scheme_ne : u.scheme ≠ []
  scheme_ok : ∀ c ∈ u.scheme, (c == ':' || c == '/') = false
  host_ne : u.host ≠ []
  host_ok : ∀ c ∈ u.host, isPathDelim c = false
  path_head : u.path.head? = some '/'
  path_ok : ∀ c ∈ u.path, isQF c = false

/-- Mirrors `Crawler::queue` (main.rs:123-132): format the URL, and unless it
is excluded, insert a fresh record `Response::new(0, 1)` into the ledger and
push the URL to the back of the frontier. -/
def Crawler.queue (c : Crawler) (url : Str) : Crawler :=
  let u := c.format_url url
  match c.is_excluded u with
  | (true, c1) => c1
  | (false, c1) =>
    { c1 with responses := c1.responses ++ [(u, Response.new 0 1)],
              pending := c1.pending ++ [u] }

/-- Queue every URL of a list in order, mirroring the `for_each` over
extracted `href` values (main.rs:101-104). -/
def queueAll (c : Crawler) (urls : List Str) : Crawler :=
  urls.foldl Crawler.queue c

/-- Errors of one fetch cycle (`Box<dyn Error>` in the source): a
transport-level failure of the request, or a body that cannot be decoded. -/
inductive CrawlError where
  | fetchFailed
  | bodyUndecodable
deriving DecidableEq

/-- Model of a `reqwest::Response` at the interface the program observes: the
final resolved URL (after redirects), the status code, and either the list of
`href` attribute values extracted from the decoded body by the external HTML
extractor, or a body-decoding failure. -/
structure FetchedResponse where
  url : Url
  status : Nat
  body : Except CrawlError (List Str)

/-- The ledger-update step of `Crawler::on_response` (main.rs:112-115):
`entry(url).or_insert_with(|| Response::new(status, 1)).set_status(status)`. -/
def updateLedgerEntry (m : List (Str × Response)) (k : Str) (status : Nat) :
    List (Str × Response) :=
  match lookupResp m k with
  | some _ => updateResp m k (fun r => r.set_status status)
  | none => m ++ [(k, (Response.new status 1).set_status status)]

/-- Mirrors `Crawler::on_response` (main.rs:96-118): read the final URL, the
status and the body (failing early if the body cannot be decoded), queue every
extracted link, then update the ledger record of the final resolved URL. -/
def Crawler.on_response (c : Crawler) (resp : FetchedResponse) :
    Except CrawlError Crawler :=
  match resp.body with
  | .error e => .error e
  | .ok links =>
    let c1 := queueAll c links
    .ok { c1 with responses := updateLedgerEntry c1.responses resp.url.toStr resp.status }

/-- Mirrors `Crawler::execute` (main.rs:178-181): format the URL, perform the
external fetch (`reqwest::get`), and hand the response to `on_response`. -/
def Crawler.execute (fetch : Str → Except CrawlError FetchedResponse)
    (c : Crawler) (url : Str) : Except CrawlError Crawler :=
  match fetch (c.format_url url) with
  | .error e => .error e
  | .ok resp => c.on_response resp

/-- The freshly constructed crawler state of `Crawler::new` (main.rs:84-89)
before the seed is queued: empty frontier and empty ledger. -/
def initialCrawler (opts : Opts) (url : Url) : Crawler :=
  { base := url, opts := opts, pending := [], responses := [] }

/-- Mirrors `Crawler::new` (main.rs:82-93): parse the entrypoint (the source
panics on failure, modelled as `Except.error`), build the state with empty
frontier and ledger, and queue the seed's path. -/
def Crawler.new (opts : Opts) : Except ParseError Crawler :=
  match Url.parse opts.entrypoint with
  | .error e => .error e
  | .ok url =>
    .ok (Crawler.queue { base := url, opts := opts, pending := [], responses := [] } url.path)

/-- One iteration of the worker loop of `main` (main.rs:216-226): pop the
front of the frontier (breaking out of the loop — `none` — when it is empty),
run `execute` on the popped URL, and on error merely report it (the loop
continues with the state as `execute` left it, which on error is unchanged). -/
def workerStep (fetch : Str → Except CrawlError FetchedResponse)
    (c : Crawler) : Option Crawler :=
  match c.pending with
  | [] => none
  | url :: rest =>
    let c1 := { c with pending := rest }
    match c1.execute fetch url with
    | .error _ => some c1
    | .ok c2 => some c2

/-- Fuel-bounded sequential run of the worker loop of `main`. -/
def workerRun (fetch : Str → Except CrawlError FetchedResponse) :
    Nat → Crawler → Crawler
  | 0, c => c
  | n + 1, c =>
    match workerStep fetch c with
    | none => c
    | some c1 => workerRun fetch n c1

/-- Events of one worker-loop iteration, for reasoning about which operations
execute while the exclusive lock on the `Crawler` is held. -/
inductive WorkerEvent where
  | acquireLock
  | releaseLock
  | popFrontier
  | fetchUrl
  | readBody
  | parseHtml
  | queueLink
  | updateLedger
deriving DecidableEq

/-- Transcription of one worker-loop iteration with a nonempty frontier
(main.rs:216-227, with `execute`/`on_response` inlined), as the sequence of
its lock and work events: the guard returned by `crawler.lock().await`
(main.rs:217) is bound for the whole loop body, so it is dropped only at the
end of the iteration, after `execute(&url).await` (main.rs:220) — which
performs `reqwest::get` (main.rs:179), reads the body text (main.rs:99),
parses the HTML and queues each link (main.rs:101-104) and updates the ledger
(main.rs:112-115) — has completed. -/
def workerIterationEvents (nLinks : Nat) : List WorkerEvent :=
  [.acquireLock, .popFrontier, .fetchUrl, .readBody, .parseHtml] ++
    List.replicate nLinks .queueLink ++ [.updateLedger, .releaseLock]

/-- The non-lock events of a trace that occur while the lock is held, given
the current lock depth. -/
def eventsUnderLock : List WorkerEvent → Nat → List WorkerEvent
  | [], _ => []
  | .acquireLock :: r, d => eventsUnderLock r (d + 1)
  | .releaseLock :: r, d => eventsUnderLock r (d - 1)
  | e :: r, d => (if 0 < d then [e] else []) ++ eventsUnderLock r d

/-- Base URL `https://example.com/` used by concrete instances below. -/
def exBase : Url :=
  { scheme := "https".data, host := "example.com".data, path := "/".data,
    query := none, fragment := none }

/-- The string `/a`. -/
def strSlashA : Str := "/a".data

/-- The string `https://example.com/`. -/
def urlRoot : Str := "https://example.com/".data

/-- The string `https://example.com/a`. -/
def urlA : Str := "https://example.com/a".data

/-- The string `https://example.com/b`. -/
def urlB : Str := "https://example.com/b".data

/-- The string `https://other.test/c`. -/
def urlOther : Str := "https://other.test/c".data

/-- Concrete crawler used by the counterexample and witness instances: seed
`https://example.com/`, `limit = 0`, `restrict_on_domain = true`, with empty
frontier and ledger. -/
def cexC1 : Crawler :=
  { base := exBase,
    opts := { entrypoint := "https://example.com/".data, restrict_on_domain := true, limit := 0 },
    pending := [], responses := [] }

/-- Concrete crawler used by the counterexample to C2: `limit = 1` and a
ledger already holding one entry. -/
def cexC2 : Crawler :=
  { base := exBase,
    opts := { entrypoint := "https://example.com/".data, restrict_on_domain := false, limit := 1 },
    pending := [],
    responses := [("https://example.com/".data, { count := 1, status := 0 })] }

/-- Concrete response used by the counterexample to C2: a fetch whose final
resolved URL `https://example.com/b` (e.g. after a redirect) is not a ledger
key, with no links in the body. -/
def cexC2resp : FetchedResponse :=
  { url := { scheme := "https".data, host := "example.com".data, path := "/b".data,
             query := none, fragment := none },
    status := 200, body := .ok [] }

/-- Concrete crawler whose ledger already holds `https://example.com/a`
(`limit = 0`), exercising the duplicate branch of the exclusion check. -/
def cexDup : Crawler :=
  { base := exBase,
    opts := { entrypoint := urlRoot, restrict_on_domain := true, limit := 0 },
    pending := [],
    responses := [(urlA, { count := 1, status := 0 })] }

/-- Concrete crawler with a nonempty frontier, for exercising a worker
iteration whose fetch fails. -/
def cexPending : Crawler :=
  { base := exBase,
    opts := { entrypoint := urlRoot, restrict_on_domain := true, limit := 0 },
    pending := [urlA],
    responses := [(urlA, { count := 1, status := 0 })] }

/-- A transport that fails every request. -/
def failFetch : Str → Except CrawlError FetchedResponse :=
  fun _ => .error .fetchFailed

/-- CLI options with a seed URL carrying a query string and a fragment. -/
def w10opts : Opts :=
  { entrypoint := "https://example.com/x?q=1#f".data,
    restrict_on_domain := true, limit := 5 }

/-- The parsed form of the seed URL of `w10opts`. -/
def w10url : Url :=
  { scheme := "https".data, host := "example.com".data, path := "/x".data,
    query := some ("q=1".data), fragment := some ("f".data) }

/-- CLI options of the scenario of C5: seed `https://example.com/`,
`restrict_on_domain = true`, `limit = 0`. -/
def scenarioOpts : Opts :=
  { entrypoint := "https://example.com/".data, restrict_on_domain := true, limit := 0 }

/-- Links of the page at `/` in the scenario of C5. -/
def scenarioLinks : List Str :=
  ["/a".data, "https://example.com/b".data, "https://other.test/c".data, "/a".data]

/-- The fetch of the scenario of C5: every request resolves to
`https://example.com/` with status 200 and the scenario's links. -/
def scenarioFetch : Str → Except CrawlError FetchedResponse :=
  fun _ => .ok { url := exBase, status := 200, body := .ok scenarioLinks }

/-- Final state of the scenario of C5: construct the crawler from the
scenario options and run one worker iteration (which pops the seed, fetches
the page at `/` and processes its links). -/
def scenarioFinal : Option Crawler :=
  match Crawler.new scenarioOpts with
  | .ok c0 => workerStep scenarioFetch c0
  | .error _ => none

/-! ### Association-list lemmas for the responses ledger -/

theorem lookupResp_append (m l : List (Str × Response)) (key : Str) :
    lookupResp (m ++ l) key =
      match lookupResp m key with
      | some v => some v
      | none => lookupResp l key := by
  induction m with
  | nil => simp [lookupResp]
  | cons p rest ih =>
    obtain ⟨k, v⟩ := p
    by_cases h : k = key <;> simp [lookupResp, h, ih]

theorem lookupResp_updateResp_self (m : List (Str × Response)) (key : Str)
    (f : Response → Response) :
    lookupResp (updateResp m key f) key = (lookupResp m key).map f := by
  induction m with
  | nil => simp [lookupResp, updateResp]
  | cons p rest ih =>
    obtain ⟨k, v⟩ := p
    by_cases h : k = key <;> simp [lookupResp, updateResp, h, ih]

theorem lookupResp_updateResp_ne (m : List (Str × Response)) (key k2 : Str)
    (f : Response → Response) (h : k2 ≠ key) :
    lookupResp (updateResp m key f) k2 = lookupResp m k2 := by
  induction m with
  | nil => simp [lookupResp, updateResp]
  | cons p rest ih =>
    obtain ⟨k, v⟩ := p
    by_cases hk : k = key
    · subst hk
      have hne : ¬ k = k2 := fun hh => h (hh ▸ rfl)
      simp [lookupResp, updateResp, hne]
    · simp only [updateResp, if_neg hk]
      by_cases hk2 : k = k2 <;> simp [lookupResp, hk2, ih]

theorem length_updateResp (m : List (Str × Response)) (key : Str)
    (f : Response → Response) :
    (updateResp m key f).length = m.length := by
  induction m with
  | nil => rfl
  | cons p rest ih =>
    obtain ⟨k, v⟩ := p
    by_cases h : k = key <;> simp [updateResp, h, ih]

theorem countKey_updateResp (m : List (Str × Response)) (key k2 : Str)
    (f : Response → Response) :
    countKey (updateResp m key f) k2 = countKey m k2 := by
  induction m with
  | nil => rfl
  | cons p rest ih =>
    obtain ⟨k, v⟩ := p
    by_cases h : k = key
    · subst h
      simp only [updateResp, if_pos rfl]
      by_cases h2 : k = k2 <;> simp [countKey, List.filter_cons, h2]
    · simp only [updateResp, if_neg h]
      by_cases h2 : k = k2
      · subst h2
        simpa [countKey, List.filter_cons] using ih
      · simpa [countKey, List.filter_cons, h2] using ih

theorem countKey_append (m : List (Str × Response)) (k : Str) (v : Response)
    (key : Str) :
    countKey (m ++ [(k, v)]) key = countKey m key + (if k = key then 1 else 0) := by
  by_cases h : k = key <;>
    simp [countKey, List.filter_append, List.filter_cons, h]

theorem countKey_eq_zero_of_lookup_none (m : List (Str × Response)) (key : Str)
    (h : lookupResp m key = none) : countKey m key = 0 := by
  induction m with
  | nil => rfl
  | cons p rest ih =>
    obtain ⟨k, v⟩ := p
    by_cases hk : k = key
    · rw [lookupResp, if_pos hk] at h
      exact absurd h (by simp)
    · rw [lookupResp, if_neg hk] at h
      have h0 := ih h
      simp only [countKey, List.filter_cons, decide_eq_true_eq, if_neg hk]
      exact h0

/-! ### Case analysis of `Crawler.is_excluded` and `Crawler.queue` -/

theorem is_excluded_cap (c : Crawler) (u : Str)
    (h1 : 0 < c.opts.limit) (h2 : c.opts.limit ≤ c.responses.length) :
    c.is_excluded u = (true, c) := by
  unfold Crawler.is_excluded
  rw [if_pos ⟨h1, h2⟩]

theorem is_excluded_dup (c : Crawler) (u : Str) (r : Response)
    (hcap : ¬(0 < c.opts.limit ∧ c.opts.limit ≤ c.responses.length))
    (h : lookupResp c.responses u = some r) :
    c.is_excluded u =
      (true, { c with responses := updateResp c.responses u Response.increment }) := by
  unfold Crawler.is_excluded
  rw [if_neg hcap, h]

theorem is_excluded_fresh (c : Crawler) (u : Str)
    (hcap : ¬(0 < c.opts.limit ∧ c.opts.limit ≤ c.responses.length))
    (h : lookupResp c.responses u = none) :
    c.is_excluded u = (parseDecision c u, c) := by
  unfold Crawler.is_excluded parseDecision
  rw [if_neg hcap, h]
  rcases hp : Url.parse u with e | entry
  · cases e <;> rfl
  · rfl

theorem is_excluded_cases (c : Crawler) (u : Str) :
    ((0 < c.opts.limit ∧ c.opts.limit ≤ c.responses.length) ∧
      c.is_excluded u = (true, c)) ∨
    (¬(0 < c.opts.limit ∧ c.opts.limit ≤ c.responses.length) ∧
      ∃ r, lookupResp c.responses u = some r ∧
        c.is_excluded u =
          (true, { c with responses := updateResp c.responses u Response.increment })) ∨
    (¬(0 < c.opts.limit ∧ c.opts.limit ≤ c.responses.length) ∧
      lookupResp c.responses u = none ∧
      c.is_excluded u = (parseDecision c u, c)) := by
  by_cases hcap : 0 < c.opts.limit ∧ c.opts.limit ≤ c.responses.length
  · exact Or.inl ⟨hcap, is_excluded_cap c u hcap.1 hcap.2⟩
  · rcases hl : lookupResp c.responses u with _ | r
    · exact Or.inr (Or.inr ⟨hcap, rfl, is_excluded_fresh c u hcap hl⟩)
    · exact Or.inr (Or.inl ⟨hcap, r, rfl, is_excluded_dup c u r hcap hl⟩)

theorem is_excluded_false_inv (c : Crawler) (u : Str)
    (h : (c.is_excluded u).1 = false) :
    c.is_excluded u = (false, c) ∧ lookupResp c.responses u = none ∧
      ¬(0 < c.opts.limit ∧ c.opts.limit ≤ c.responses.length) := by
  rcases is_excluded_cases c u with ⟨_, he⟩ | ⟨_, r, _, he⟩ | ⟨hcap, hl, he⟩
  · rw [he] at h; simp at h
  · rw [he] at h; simp at h
  · have hd : parseDecision c u = false := by rw [he] at h; exact h
    exact ⟨by rw [he, hd], hl, hcap⟩

theorem queue_of_excluded (c c1 : Crawler) (url : Str)
    (h : c.is_excluded (c.format_url url) = (true, c1)) :
    c.queue url = c1 := by
  simp only [Crawler.queue]
  rw [h]

theorem queue_of_admitted (c c1 : Crawler) (url : Str)
    (h : c.is_excluded (c.format_url url) = (false, c1)) :
    c.queue url =
      { c1 with
        responses := c1.responses ++ [(c.format_url url, Response.new 0 1)],
        pending := c1.pending ++ [c.format_url url] } := by
  simp only [Crawler.queue]
  rw [h]

theorem is_excluded_snd_fields (c : Crawler) (u : Str) :
    ((c.is_excluded u).2).base = c.base ∧ ((c.is_excluded u).2).opts = c.opts ∧
      ((c.is_excluded u).2).pending = c.pending := by
  rcases is_excluded_cases c u with ⟨_, he⟩ | ⟨_, r, _, he⟩ | ⟨_, _, he⟩ <;>
    rw [he] <;> exact ⟨rfl, rfl, rfl⟩

theorem queue_fields (c : Crawler) (url : Str) :
    ((c.queue url).base = c.base ∧ (c.queue url).opts = c.opts) := by
  rcases he : c.is_excluded (c.format_url url) with ⟨b, c1⟩
  have hf := is_excluded_snd_fields c (c.format_url url)
  rw [he] at hf
  cases b
  · rw [queue_of_admitted c c1 url he]
    exact ⟨hf.1, hf.2.1⟩
  · rw [queue_of_excluded c c1 url he]
    exact ⟨hf.1, hf.2.1⟩

theorem format_url_congr (c c1 : Crawler) (url : Str) (h : c1.base = c.base) :
    c1.format_url url = c.format_url url := by
  unfold Crawler.format_url
  rw [h]

theorem queue_length_le (c : Crawler) (url : Str) :
    (c.queue url).responses.length ≤ c.responses.length + 1 := by
  rcases is_excluded_cases c (c.format_url url) with ⟨_, he⟩ | ⟨_, r, _, he⟩ | ⟨_, _, he⟩
  · rw [queue_of_excluded c _ url he]; omega
  · rw [queue_of_excluded c _ url he]
    simp [length_updateResp]
  · rcases hd : parseDecision c (c.format_url url) with _ | _
    · rw [hd] at he
      rw [queue_of_admitted c _ url he]
      simp
    · rw [hd] at he
      rw [queue_of_excluded c _ url he]
      omega

theorem queue_at_cap (c : Crawler) (url : Str)
    (h1 : 0 < c.opts.limit) (h2 : c.opts.limit ≤ c.responses.length) :
    c.queue url = c :=
  queue_of_excluded c c url (is_excluded_cap c (c.format_url url) h1 h2)

/-! ### Duplicate handling of `queue` under `limit = 0` -/

theorem queue_dup (c : Crawler) (url u : Str) (r : Response)
    (h0 : c.opts.limit = 0) (hu : c.format_url url = u)
    (hr : lookupResp c.responses u = some r) :
    c.queue url = { c with responses := updateResp c.responses u Response.increment } := by
  have hcap : ¬(0 < c.opts.limit ∧ c.opts.limit ≤ c.responses.length) := by
    rw [h0]
    intro h
    exact absurd h.1 (by omega)
  apply queue_of_excluded
  rw [hu]
  exact is_excluded_dup c u r hcap hr

theorem queueAll_dup (rest : List Str) : ∀ (c : Crawler) (u : Str) (r : Response),
    c.opts.limit = 0 →
    lookupResp c.responses u = some r →
    (∀ raw ∈ rest, c.format_url raw = u) →
    (queueAll c rest).base = c.base ∧
    (queueAll c rest).opts = c.opts ∧
    (queueAll c rest).pending = c.pending ∧
    lookupResp (queueAll c rest).responses u =
      some { count := r.count + rest.length, status := r.status } ∧
    countKey (queueAll c rest).responses u = countKey c.responses u ∧
    (∀ k, k ≠ u → lookupResp (queueAll c rest).responses k = lookupResp c.responses k) := by
  induction rest with
  | nil =>
    intro c u r h0 hr hf
    refine ⟨rfl, rfl, rfl, ?_, rfl, fun k hk => rfl⟩
    rw [show queueAll c [] = c from rfl, hr]
    cases r
    simp
  | cons raw rest ih =>
    intro c u r h0 hr hf
    have hq : c.queue raw = { c with responses := updateResp c.responses u Response.increment } :=
      queue_dup c raw u r h0 (hf raw (by simp)) hr
    have hstep : queueAll c (raw :: rest) =
        queueAll { c with responses := updateResp c.responses u Response.increment } rest := by
      unfold queueAll
      rw [List.foldl_cons, hq]
    have hlook : lookupResp (updateResp c.responses u Response.increment) u =
        some (Response.increment r) := by
      rw [lookupResp_updateResp_self, hr]
      rfl
    have hmain := ih { c with responses := updateResp c.responses u Response.increment } u
      (Response.increment r) h0 hlook (fun raw2 h2 => hf raw2 (by simp [h2]))
    rw [hstep]
    obtain ⟨hb, ho, hp, hl, hc, hk⟩ := hmain
    refine ⟨hb, ho, hp, ?_, ?_, ?_⟩
    · rw [hl]
      have : Response.increment r = { count := r.count + 1, status := r.status } := rfl
      rw [this]
      simp only [List.length_cons]
      congr 2
      omega
    · rw [hc, countKey_updateResp]
    · intro k hku
      rw [hk k hku, lookupResp_updateResp_ne _ _ _ _ hku]

theorem queueAll_le_limit (raws : List Str) : ∀ c : Crawler,
    0 < c.opts.limit → c.responses.length ≤ c.opts.limit →
    (queueAll c raws).responses.length ≤ c.opts.limit := by
  induction raws with
  | nil => intro c _ h; exact h
  | cons raw rest ih =>
    intro c hpos hlen
    have hstep : queueAll c (raw :: rest) = queueAll (c.queue raw) rest := by
      unfold queueAll
      rw [List.foldl_cons]
    rw [hstep]
    have hopts := (queue_fields c raw).2
    by_cases hcap : c.opts.limit ≤ c.responses.length
    · rw [queue_at_cap c raw hpos hcap]
      exact ih c hpos hlen
    · have h1 : (c.queue raw).responses.length ≤ c.opts.limit := by
        have := queue_length_le c raw
        omega
      have h2 := ih (c.queue raw) (by rw [hopts]; exact hpos) (by rw [hopts]; exact h1)
      rw [hopts] at h2
      exact h2

/-! ### Claim C1 -/

/-- C1 counterexample: the claim as stated fails on the code.  With
`limit = 0` and `restrict_on_domain = true` (base `https://example.com/`),
presenting the normalized URL `https://other.test/c` once leaves the Ledger
with **no** record for it (the domain check excludes it), contradicting "the
first call inserts it with count 1" and "the Ledger contains exactly one
record for that URL". -/
theorem queue_dedup_counterexample :
    cexC1.opts.limit = 0 ∧
    cexC1.format_url urlOther = urlOther ∧
    (cexC1.queue urlOther).responses = [] ∧
    countKey (cexC1.queue urlOther).responses urlOther = 0 :=
  ⟨rfl, rfl, rfl, rfl⟩

/-- C1 (amended): for every sequence of `queue` calls presenting the same
normalized URL `u` with `limit = 0`, **provided the first call admits `u`**
(the parse/domain phase of the exclusion policy does not reject it), the
Ledger ends with exactly one record for `u`, its `reference_count` equals the
number of presentations (the first call inserts it with count 1, every later
call increments by exactly 1), and only the first call appends `u` to the
Frontier. -/
theorem queue_dedup_amended (c : Crawler) (u raw0 : Str) (rest : List Str)
    (hlim : c.opts.limit = 0)
    (hnew : lookupResp c.responses u = none)
    (hadm : (c.is_excluded u).1 = false)
    (h0 : c.format_url raw0 = u)
    (hrest : ∀ raw ∈ rest, c.format_url raw = u) :
    countKey (queueAll c (raw0 :: rest)).responses u = 1 ∧
    lookupResp (queueAll c (raw0 :: rest)).responses u =
      some { count := rest.length + 1, status := 0 } ∧
    (queueAll c (raw0 :: rest)).pending = c.pending ++ [u] := by
  obtain ⟨he, -, -⟩ := is_excluded_false_inv c u hadm
  have hq : c.queue raw0 =
      { c with responses := c.responses ++ [(u, Response.new 0 1)],
               pending := c.pending ++ [u] } := by
    have := queue_of_admitted c c raw0 (by rw [h0]; exact he)
    rw [this, h0]
  have hstep : queueAll c (raw0 :: rest) = queueAll (c.queue raw0) rest := by
    unfold queueAll
    rw [List.foldl_cons]
  have hlook1 : lookupResp (c.responses ++ [(u, Response.new 0 1)]) u =
      some { count := 1, status := 0 } := by
    rw [lookupResp_append, hnew]
    simp [lookupResp, Response.new]
  have hcount1 : countKey (c.responses ++ [(u, Response.new 0 1)]) u = 1 := by
    rw [countKey_append, countKey_eq_zero_of_lookup_none c.responses u hnew, if_pos rfl]
  have hmain := queueAll_dup rest (c.queue raw0) u { count := 1, status := 0 }
    (by rw [(queue_fields c raw0).2]; exact hlim)
    (by rw [hq]; exact hlook1)
    (fun raw h2 => by
      rw [format_url_congr c (c.queue raw0) raw (queue_fields c raw0).1]
      exact hrest raw h2)
  obtain ⟨-, -, hp, hl, hc, -⟩ := hmain
  rw [hstep]
  refine ⟨?_, ?_, ?_⟩
  · rw [hc, hq]
    exact hcount1
  · rw [hl]
    congr 1
    simp
    omega
  · rw [hp, hq]

/-- Witness for `queue_dedup_amended`: presenting `/a` twice to the crawler
seeded at `https://example.com/` yields one ledger record for
`https://example.com/a` with reference count 2, appended once to the
frontier. -/
theorem queue_dedup_amended_witness :
    countKey (queueAll cexC1 [strSlashA, strSlashA]).responses urlA = 1 ∧
    lookupResp (queueAll cexC1 [strSlashA, strSlashA]).responses urlA =
      some { count := 2, status := 0 } ∧
    (queueAll cexC1 [strSlashA, strSlashA]).pending = cexC1.pending ++ [urlA] :=
  queue_dedup_amended cexC1 urlA strSlashA [strSlashA] rfl rfl rfl rfl
    (by decide)

/-! ### Claim C2 -/

/-- C2 counterexample: the claim as stated fails on the code because
`on_response` bypasses the limit check.  With `limit = 1` and a Ledger
already holding 1 entry, an `on_response` whose final resolved URL is not yet
a key (e.g. after a redirect) inserts a fresh record, growing the Ledger to 2
entries. -/
theorem limit_enforcement_counterexample :
    cexC2.opts.limit = 1 ∧
    cexC2.responses.length = 1 ∧
    (cexC2.on_response cexC2resp).map (fun c => c.responses.length) = .ok 2 :=
  ⟨rfl, rfl, rfl⟩

/-- C2 (amended): with `limit = K > 0` the **`queue`** path never pushes the
Ledger beyond K entries: starting from a Ledger of at most K entries, any
sequence of `queue` calls leaves at most K entries, and once the Ledger has at
least K entries every further `queue` call is the identity on the whole
state.  (`on_response` is exempt: its ledger-update step may insert a record
for a redirect-resolved URL past the limit, as the counterexample shows.) -/
theorem limit_enforcement_amended (c : Crawler) (raws : List Str)
    (hpos : 0 < c.opts.limit) (hlen : c.responses.length ≤ c.opts.limit) :
    (queueAll c raws).responses.length ≤ c.opts.limit ∧
    (∀ url, c.opts.limit ≤ c.responses.length → c.queue url = c) :=
  ⟨queueAll_le_limit raws c hpos hlen,
   fun url hcap => queue_at_cap c url hpos hcap⟩

/-- Witness for `limit_enforcement_amended`: a crawler at its limit of 1
entry stays at 1 entry under a further `queue` call, which is the identity. -/
theorem limit_enforcement_amended_witness :
    (queueAll cexC2 [urlA]).responses.length ≤ cexC2.opts.limit ∧
    cexC2.queue urlB = cexC2 :=
  ⟨(limit_enforcement_amended cexC2 [urlA] (by decide) (by decide)).1,
   (limit_enforcement_amended cexC2 [urlB] (by decide) (by decide)).2 urlB (by decide)⟩

/-! ### Claim C3 -/

/-- C3: `is_excluded` decides in this fixed order, first match winning:
(1) if `limit > 0` and the ledger size is at least `limit`, it returns `true`
without touching any record; (2) else if the URL is already a ledger key, it
increments exactly that record's `reference_count` by 1 and returns `true`;
(3) else it parses the URL: on success it returns `true` exactly when
`restrict_on_domain` is set and the parsed domain differs from the base's,
on a `RelativeUrlWithoutBase` error it returns `false`, and on any other
parse error it returns `true` — in cases (1) and (3) the state is unchanged.
Moreover the duplicate branch is the only operation that changes an existing
record's count: the ledger-update step of `on_response` preserves every
existing record's count, and an admitting `queue` call preserves every
existing record entirely. -/
theorem is_excluded_decision_order (c : Crawler) (u : Str) :
    (0 < c.opts.limit → c.opts.limit ≤ c.responses.length →
      c.is_excluded u = (true, c)) ∧
    (¬(0 < c.opts.limit ∧ c.opts.limit ≤ c.responses.length) →
      ∀ r, lookupResp c.responses u = some r →
        (c.is_excluded u).1 = true ∧
        lookupResp ((c.is_excluded u).2).responses u =
          some { count := r.count + 1, status := r.status } ∧
        (∀ k, k ≠ u →
          lookupResp ((c.is_excluded u).2).responses k = lookupResp c.responses k) ∧
        ((c.is_excluded u).2).pending = c.pending) ∧
    (¬(0 < c.opts.limit ∧ c.opts.limit ≤ c.responses.length) →
      lookupResp c.responses u = none →
      (c.is_excluded u).2 = c ∧
      (∀ entry, Url.parse u = .ok entry →
        (c.is_excluded u).1 =
          (c.opts.restrict_on_domain && decide (entry.domain ≠ c.base.domain))) ∧
      (Url.parse u = .error .RelativeUrlWithoutBase → (c.is_excluded u).1 = false) ∧
      (∀ e, Url.parse u = .error e → e ≠ .RelativeUrlWithoutBase →
        (c.is_excluded u).1 = true)) ∧
    (∀ k2 status k r, lookupResp c.responses k = some r →
      (lookupResp (updateLedgerEntry c.responses k2 status) k).map Response.count =
        some r.count) ∧
    ((c.is_excluded (c.format_url u)).1 = false →
      ∀ k r, lookupResp c.responses k = some r →
        lookupResp (c.queue u).responses k = some r) := by
  refine ⟨?_, ?_, ?_, ?_, ?_⟩
  · intro h1 h2
    exact is_excluded_cap c u h1 h2
  · intro hcap r hr
    rw [is_excluded_dup c u r hcap hr]
    refine ⟨rfl, ?_, ?_, rfl⟩
    · rw [lookupResp_updateResp_self, hr]
      rfl
    · intro k hk
      exact lookupResp_updateResp_ne _ _ _ _ hk
  · intro hcap hn
    rw [is_excluded_fresh c u hcap hn]
    refine ⟨rfl, ?_, ?_, ?_⟩
    · intro entry hp
      unfold parseDecision
      rw [hp]
    · intro hp
      unfold parseDecision
      rw [hp]
    · intro e hp he
      unfold parseDecision
      rw [hp]
      cases e
      · exact absurd rfl he
      · rfl
  · intro k2 status k r hk
    unfold updateLedgerEntry
    rcases h2 : lookupResp c.responses k2 with _ | r2
    · rw [lookupResp_append, hk]
      rfl
    · by_cases hkk : k = k2
      · subst hkk
        rw [lookupResp_updateResp_self, hk]
        rfl
      · rw [lookupResp_updateResp_ne _ _ _ _ hkk, hk]
        rfl
  · intro hadm k r hk
    obtain ⟨he, -, -⟩ := is_excluded_false_inv c (c.format_url u) hadm
    rw [queue_of_admitted c c u he]
    rw [lookupResp_append, hk]

/-- Witness for `is_excluded_decision_order`: the cap branch fires on a
crawler at its limit, the duplicate branch increments the existing record of
`https://example.com/a`, and the parse branch of a fresh URL leaves the
state untouched. -/
theorem is_excluded_decision_order_witness :
    cexC2.is_excluded urlA = (true, cexC2) ∧
    ((cexDup.is_excluded urlA).1 = true ∧
      lookupResp ((cexDup.is_excluded urlA).2).responses urlA =
        some { count := 2, status := 0 }) ∧
    (cexC1.is_excluded urlOther).2 = cexC1 :=
  ⟨(is_excluded_decision_order cexC2 urlA).1 (by decide) (by decide),
   ⟨((is_excluded_decision_order cexDup urlA).2.1 (by decide)
       { count := 1, status := 0 } rfl).1,
    ((is_excluded_decision_order cexDup urlA).2.1 (by decide)
       { count := 1, status := 0 } rfl).2.1⟩,
   ((is_excluded_decision_order cexC1 urlOther).2.2.1 (by decide) rfl).1⟩

/-! ### Claim C4 -/

/-- C4: after `queue(raw)`, with `u` the normalized URL, `u` is a ledger key
iff it was a key before or this call admitted it; the call appends `u` to the
back of the frontier iff it admitted it (and then the fresh record is
`{count := 1, status := 0}`); when `u` was already a key — and more generally
whenever the call does not admit — nothing is appended to the frontier. -/
theorem queue_admission_guarantee (c : Crawler) (raw : Str) :
    ((lookupResp (c.queue raw).responses (c.format_url raw)).isSome ↔
      ((lookupResp c.responses (c.format_url raw)).isSome ∨
        (c.is_excluded (c.format_url raw)).1 = false)) ∧
    ((c.is_excluded (c.format_url raw)).1 = false →
      (c.queue raw).pending = c.pending ++ [c.format_url raw] ∧
      lookupResp (c.queue raw).responses (c.format_url raw) =
        some { count := 1, status := 0 }) ∧
    ((lookupResp c.responses (c.format_url raw)).isSome →
      (c.queue raw).pending = c.pending) ∧
    ((c.is_excluded (c.format_url raw)).1 = true →
      (c.queue raw).pending = c.pending) := by
  rcases is_excluded_cases c (c.format_url raw) with
    ⟨hcap, he⟩ | ⟨hcap, r, hr, he⟩ | ⟨hcap, hn, he⟩
  · rw [queue_of_excluded c c raw he, he]
    simp
  · rw [queue_of_excluded c _ raw he, he]
    refine ⟨?_, ?_, ?_, ?_⟩
    · rw [lookupResp_updateResp_self, hr]
      simp
    · intro h
      simp at h
    · intro _
      rfl
    · intro _
      rfl
  · rcases hd : parseDecision c (c.format_url raw) with _ | _
    · rw [hd] at he
      rw [queue_of_admitted c c raw he, he]
      refine ⟨?_, ?_, ?_, ?_⟩
      · rw [lookupResp_append, hn]
        simp [lookupResp]
      · intro _
        refine ⟨rfl, ?_⟩
        rw [lookupResp_append, hn]
        simp [lookupResp]
        rfl
      · intro h
        rw [hn] at h
        simp at h
      · intro h
        simp at h
    · rw [hd] at he
      rw [queue_of_excluded c c raw he, he]
      rw [hn]
      simp
  
/-- Witness for `queue_admission_guarantee`: queueing `/a` on the seeded
crawler admits `https://example.com/a`, pushing it once and recording
`{count := 1, status := 0}`. -/
theorem queue_admission_guarantee_witness :
    (cexC1.queue strSlashA).pending =
      cexC1.pending ++ [cexC1.format_url strSlashA] ∧
    lookupResp (cexC1.queue strSlashA).responses (cexC1.format_url strSlashA) =
      some { count := 1, status := 0 } :=
  (queue_admission_guarantee cexC1 strSlashA).2.1 (by decide)

/-! ### Claim C5 -/

/-- C5: for the fixed scenario — seed `https://example.com/` (path `/`),
`limit = 0`, `restrict_on_domain = true`, and the page at `/` yielding the
links `/a`, `https://example.com/b`, `https://other.test/c`, `/a` in order —
after processing, the ledger's keys are exactly `https://example.com/`,
`https://example.com/a`, `https://example.com/b` (in insertion order),
`https://other.test/c` is not a key, and the record of
`https://example.com/a` has reference count 2. -/
theorem scenario_example_com :
    scenarioFinal.map (fun c : Crawler =>
      (c.responses.map Prod.fst,
       lookupResp c.responses urlA,
       lookupResp c.responses urlOther)) =
    some ([urlRoot, urlA, urlB], some { count := 2, status := 0 }, none) := rfl

/-! ### Claim C6 -/

/-- C6: the ledger-update step of `on_response` sets `last_status` of the
record keyed by the final resolved URL and changes no record's count: if the
key is present only its status changes (size unchanged), if absent a fresh
record `{count := 1, status := code}` is appended (size + 1), every other
key's record is untouched, and the step operates after the queueing phase
without touching the frontier and without consulting the exclusion policy
(the fresh insert happens unconditionally). -/
theorem on_response_ledger_update (m : List (Str × Response)) (k : Str)
    (status : Nat) :
    (∀ r, lookupResp m k = some r →
      lookupResp (updateLedgerEntry m k status) k =
        some { count := r.count, status := status } ∧
      (updateLedgerEntry m k status).length = m.length) ∧
    (lookupResp m k = none →
      lookupResp (updateLedgerEntry m k status) k =
        some { count := 1, status := status } ∧
      (updateLedgerEntry m k status).length = m.length + 1) ∧
    (∀ k2, k2 ≠ k → lookupResp (updateLedgerEntry m k status) k2 = lookupResp m k2) ∧
    (∀ (c : Crawler) (resp : FetchedResponse) (links : List Str) (c2 : Crawler),
      resp.body = .ok links → c.on_response resp = .ok c2 →
      c2.pending = (queueAll c links).pending ∧
      c2.responses =
        updateLedgerEntry (queueAll c links).responses resp.url.toStr resp.status) := by
  refine ⟨?_, ?_, ?_, ?_⟩
  · intro r hr
    unfold updateLedgerEntry
    rw [hr]
    constructor
    · rw [lookupResp_updateResp_self, hr]
      rfl
    · exact length_updateResp m k _
  · intro hn
    unfold updateLedgerEntry
    rw [hn]
    constructor
    · rw [lookupResp_append, hn]
      simp [lookupResp]
      rfl
    · simp
  · intro k2 hk2
    unfold updateLedgerEntry
    rcases hl : lookupResp m k with _ | r
    · rw [lookupResp_append]
      rcases h2 : lookupResp m k2 with _ | r2
      · simp [lookupResp, Ne.symm hk2]
      · rfl
    · exact lookupResp_updateResp_ne _ _ _ _ hk2
  · intro c resp links c2 hb hok
    unfold Crawler.on_response at hok
    rw [hb] at hok
    have h2 : ({ queueAll c links with
        responses := updateLedgerEntry (queueAll c links).responses
          resp.url.toStr resp.status } : Crawler) = c2 := by
      exact Except.ok.inj hok
    rw [← h2]
    exact ⟨rfl, rfl⟩

/-- Witness for `on_response_ledger_update`: updating the present key
`https://example.com/a` with status 404 sets its status, keeps its count 1
and keeps the ledger size; a missing key would be appended fresh. -/
theorem on_response_ledger_update_witness :
    (lookupResp (updateLedgerEntry cexDup.responses urlA 404) urlA =
      some { count := 1, status := 404 } ∧
     (updateLedgerEntry cexDup.responses urlA 404).length =
       cexDup.responses.length) ∧
    (lookupResp (updateLedgerEntry cexDup.responses urlB 404) urlB =
      some { count := 1, status := 404 } ∧
     (updateLedgerEntry cexDup.responses urlB 404).length =
       cexDup.responses.length + 1) :=
  ⟨(on_response_ledger_update cexDup.responses urlA 404).1
     { count := 1, status := 0 } rfl,
   (on_response_ledger_update cexDup.responses urlB 404).2.1 rfl⟩

/-! ### Claim C7 -/

/-- C7 counterexample: in the worker loop of `main` (main.rs:216-227) the
guard returned by `crawler.lock().await` is bound for the whole loop body, so
the network fetch and the HTML parsing both occur while the exclusive lock on
the `Crawler` is held — contradicting the claim that they execute outside
the lock. -/
theorem fetch_outside_lock_counterexample :
    WorkerEvent.fetchUrl ∈ eventsUnderLock (workerIterationEvents 1) 0 ∧
    WorkerEvent.parseHtml ∈ eventsUnderLock (workerIterationEvents 1) 0 := by
  constructor <;> decide

theorem eventsUnderLock_queueLinks (l : List WorkerEvent) :
    ∀ n : Nat, eventsUnderLock (List.replicate n WorkerEvent.queueLink ++ l) 1 =
      List.replicate n WorkerEvent.queueLink ++ eventsUnderLock l 1
  | 0 => by simp
  | n + 1 => by
    rw [List.replicate_succ, List.cons_append]
    rw [show eventsUnderLock (WorkerEvent.queueLink :: (List.replicate n WorkerEvent.queueLink ++ l)) 1 =
      (if 0 < 1 then [WorkerEvent.queueLink] else []) ++
        eventsUnderLock (List.replicate n WorkerEvent.queueLink ++ l) 1 from rfl]
    rw [eventsUnderLock_queueLinks l n]
    simp

/-- C7 (amended): in every worker iteration the exclusive lock on the
`Crawler` is acquired before the frontier pop and released only at the end of
the iteration, so the frontier pop, the network fetch, the body read, the
HTML parsing, every per-link `queue` call and the ledger update all execute
while the lock is held; fetches of distinct workers are therefore fully
serialized, not concurrent. -/
theorem fetch_under_lock_amended (n : Nat) :
    eventsUnderLock (workerIterationEvents n) 0 =
      [WorkerEvent.popFrontier, WorkerEvent.fetchUrl, WorkerEvent.readBody,
        WorkerEvent.parseHtml] ++
        List.replicate n WorkerEvent.queueLink ++ [WorkerEvent.updateLedger] := by
  unfold workerIterationEvents
  rw [show ([WorkerEvent.acquireLock, WorkerEvent.popFrontier, WorkerEvent.fetchUrl,
      WorkerEvent.readBody, WorkerEvent.parseHtml] ++
      List.replicate n WorkerEvent.queueLink ++
      [WorkerEvent.updateLedger, WorkerEvent.releaseLock]) =
    WorkerEvent.acquireLock :: WorkerEvent.popFrontier :: WorkerEvent.fetchUrl ::
      WorkerEvent.readBody :: WorkerEvent.parseHtml ::
      (List.replicate n WorkerEvent.queueLink ++
        [WorkerEvent.updateLedger, WorkerEvent.releaseLock]) by simp]
  rw [show eventsUnderLock (WorkerEvent.acquireLock :: WorkerEvent.popFrontier ::
      WorkerEvent.fetchUrl :: WorkerEvent.readBody :: WorkerEvent.parseHtml ::
      (List.replicate n WorkerEvent.queueLink ++
        [WorkerEvent.updateLedger, WorkerEvent.releaseLock])) 0 =
    [WorkerEvent.popFrontier] ++ [WorkerEvent.fetchUrl] ++ [WorkerEvent.readBody] ++
      [WorkerEvent.parseHtml] ++
      eventsUnderLock (List.replicate n WorkerEvent.queueLink ++
        [WorkerEvent.updateLedger, WorkerEvent.releaseLock]) 1 from rfl]
  rw [eventsUnderLock_queueLinks _ n]
  rw [show eventsUnderLock [WorkerEvent.updateLedger, WorkerEvent.releaseLock] 1 =
    [WorkerEvent.updateLedger] from rfl]
  simp

/-! ### Claim C8 -/

/-- C8: when the fetch of a URL fails at the transport level, or its body
cannot be decoded, `execute` returns an error and the iteration leaves the
state unchanged beyond the frontier pop that already happened: the URL is not
pushed back, no links are enqueued, and the ledger — in particular the URL's
record and its `last_status`, if one exists — is exactly as before; the
worker loop carries on (the error does not terminate the run). -/
theorem execute_failure_frame (fetch : Str → Except CrawlError FetchedResponse)
    (c : Crawler) (url : Str) (rest : List Str)
    (hpend : c.pending = url :: rest)
    (hfail : ∀ resp, fetch (c.format_url url) = .ok resp → ∃ e, resp.body = .error e) :
    (∃ e, Crawler.execute fetch { c with pending := rest } url = .error e) ∧
    workerStep fetch c = some { c with pending := rest } ∧
    (∀ n, workerRun fetch (n + 1) c = workerRun fetch n { c with pending := rest }) := by
  have hform : Crawler.format_url { c with pending := rest } url = c.format_url url := rfl
  have hexec : ∃ e, Crawler.execute fetch { c with pending := rest } url = .error e := by
    rcases hf : fetch (c.format_url url) with e | resp
    · exact ⟨e, by simp only [Crawler.execute, hform, hf]⟩
    · obtain ⟨e, hb⟩ := hfail resp hf
      exact ⟨e, by simp only [Crawler.execute, Crawler.on_response, hform, hf, hb]⟩
  have hstep : workerStep fetch c = some { c with pending := rest } := by
    obtain ⟨e, he⟩ := hexec
    simp only [workerStep, hpend, he]
  refine ⟨hexec, hstep, ?_⟩
  intro n
  rw [show workerRun fetch (n + 1) c =
    (match workerStep fetch c with
     | none => c
     | some c1 => workerRun fetch n c1) from rfl]
  rw [hstep]

/-- Witness for `execute_failure_frame`: a worker iteration on a crawler
whose only pending URL is `https://example.com/a`, with a transport that
fails every request, pops the URL and changes nothing else, and the loop
continues. -/
theorem execute_failure_frame_witness :
    workerStep failFetch cexPending = some { cexPending with pending := ([] : List Str) } ∧
    workerRun failFetch 1 cexPending =
      workerRun failFetch 0 { cexPending with pending := ([] : List Str) } :=
  ⟨(execute_failure_frame failFetch cexPending urlA [] rfl
      (fun resp h => by simp [failFetch] at h)).2.1,
   (execute_failure_frame failFetch cexPending urlA [] rfl
      (fun resp h => by simp [failFetch] at h)).2.2 0⟩

/-! ### List lemmas for URL strings -/

theorem takeWhile_append_all {α : Type} (p : α → Bool) : ∀ (a b : List α),
    (∀ x ∈ a, p x = true) → (∀ x, b.head? = some x → p x = false) →
    (a ++ b).takeWhile p = a ∧ (a ++ b).dropWhile p = b
  | [], b, _, hb => by
    cases b with
    | nil => simp
    | cons x t =>
      have hx := hb x rfl
      simp [List.takeWhile_cons, List.dropWhile_cons, hx]
  | x :: a, b, ha, hb => by
    have hx := ha x (List.mem_cons_self x a)
    have ih := takeWhile_append_all p a b (fun y hy => ha y (List.mem_cons_of_mem x hy)) hb
    simp [List.takeWhile_cons, List.dropWhile_cons, hx, ih.1, ih.2]

theorem takeWhile_all {α : Type} (p : α → Bool) (l : List α)
    (h : ∀ x ∈ l, p x = true) : l.takeWhile p = l := by
  have := takeWhile_append_all p l [] h (by intro x hx; simp at hx)
  simpa using this.1

theorem dropWhile_all {α : Type} (p : α → Bool) (l : List α)
    (h : ∀ x ∈ l, p x = true) : l.dropWhile p = [] := by
  have := takeWhile_append_all p l [] h (by intro x hx; simp at hx)
  simpa using this.2

theorem dropWhile_head_false {α : Type} (p : α → Bool) : ∀ (l : List α) (x : α),
    (l.dropWhile p).head? = some x → p x = false
  | [], x, h => by simp [List.dropWhile] at h
  | a :: l, x, h => by
    by_cases hp : p a
    · rw [List.dropWhile_cons, if_pos hp] at h
      exact dropWhile_head_false p l x h
    · rw [List.dropWhile_cons, if_neg hp] at h
      simp at h
      cases h
      cases hpa : p a with
      | true => exact absurd hpa hp
      | false => rfl

theorem takeWhile_head {α : Type} (p : α → Bool) (l : List α) (x : α)
    (h : (l.takeWhile p).head? = some x) : l.head? = some x := by
  cases l with
  | nil => simp [List.takeWhile] at h
  | cons a t =>
    rw [List.takeWhile_cons] at h
    by_cases hp : p a
    · rw [if_pos hp] at h
      exact h
    · rw [if_neg hp] at h
      simp at h

/-! ### Properties of the URL-component functions -/

theorem pathPart_self (l : Str) (hne : l ≠ [])
    (hok : ∀ c ∈ l, isQF c = false) : pathPart l = l := by
  unfold pathPart
  rw [takeWhile_all _ l (fun c hc => by rw [hok c hc]; rfl)]
  rw [if_neg hne]

theorem queryPart_none (l : Str) (hok : ∀ c ∈ l, isQF c = false) :
    queryPart l = none := by
  unfold queryPart
  rw [dropWhile_all _ l (fun c hc => by rw [hok c hc]; rfl)]

theorem fragPart_none (l : Str) (hok : ∀ c ∈ l, (c == '#') = false) :
    fragPart l = none := by
  unfold fragPart
  rw [dropWhile_all _ l (fun c hc => by rw [hok c hc]; rfl)]

theorem pathPart_head (r : Str)
    (hd : ∀ x, r.head? = some x → isPathDelim x = true) :
    (pathPart r).head? = some '/' := by
  unfold pathPart
  by_cases he : r.takeWhile (fun c => !(isQF c)) = []
  · rw [if_pos he]
    rfl
  · rw [if_neg he]
    rcases hq : (r.takeWhile (fun c => !(isQF c))).head? with _ | x
    · rw [List.head?_eq_none_iff] at hq
      exact absurd hq he
    · have hr := takeWhile_head _ r x hq
      have hmem : x ∈ r.takeWhile (fun c => !(isQF c)) := by
        rcases hcons : r.takeWhile (fun c => !(isQF c)) with _ | ⟨y, t⟩
        · exact absurd hcons he
        · rw [hcons] at hq
          simp at hq
          rw [hq]
          exact List.mem_cons_self x t
      have hqf : (!(isQF x)) = true := by
        have h6 := List.mem_takeWhile_imp hmem
        simpa using h6
      have hdx := hd x hr
      have hslash : x = '/' := by
        unfold isPathDelim at hdx
        rcases hqx : isQF x with _ | _
        · rw [hqx, Bool.or_false] at hdx
          exact eq_of_beq hdx
        · rw [hqx] at hqf
          simp at hqf
      rw [hslash]

theorem pathPart_ok (r : Str) : ∀ c ∈ pathPart r, isQF c = false := by
  unfold pathPart
  by_cases he : r.takeWhile (fun c => !(isQF c)) = []
  · rw [if_pos he]
    intro c hc
    simp at hc
    rw [hc]
    rfl
  · rw [if_neg he]
    intro c hc
    have := List.mem_takeWhile_imp hc
    simp at this
    rw [this]

theorem pathPart_ne_nil (r : Str) : pathPart r ≠ [] := by
  unfold pathPart
  by_cases he : r.takeWhile (fun c => !(isQF c)) = []
  · rw [if_pos he]
    simp
  · rw [if_neg he]
    exact he

/-! ### `toStr` never begins with a slash (for a slash-free scheme) -/

theorem toStr_head_ne_slash (v : Url) (h1 : v.scheme ≠ []) (h2 : '/' ∉ v.scheme) :
    v.toStr.head? ≠ some '/' := by
  unfold Url.toStr
  rcases hs : v.scheme with _ | ⟨c0, s⟩
  · exact absurd hs h1
  · have hc0 : c0 ≠ '/' := fun hh => h2 (by rw [hs, hh]; exact List.mem_cons_self _ _)
    simp [List.cons_append, hc0]

/-! ### Claim C9 -/

/-- C9: `format_url` returns any string not starting with `/` unchanged; a
string starting with `/` is resolved by joining it onto the base; and
normalization is idempotent: a second application of `format_url` to the
result leaves it unchanged (the base's scheme is nonempty and free of `/`,
as every parsed base's is). -/
theorem format_url_idempotent (c : Crawler)
    (h1 : c.base.scheme ≠ []) (h2 : '/' ∉ c.base.scheme) (u : Str) :
    (u.head? ≠ some '/' → c.format_url u = u) ∧
    (∀ f, c.base.join u = some f → c.format_url u = f.toStr) ∧
    c.format_url (c.format_url u) = c.format_url u := by
  have habs : ∀ v, v.head? ≠ some '/' → c.format_url v = v := by
    intro v hv
    unfold Crawler.format_url
    rw [if_neg hv]
  have hjoin : ∀ f, c.base.join u = some f → c.format_url u = f.toStr := by
    intro f hf
    unfold Url.join at hf
    by_cases hu : u.head? = some '/'
    · rw [if_pos hu] at hf
      unfold Crawler.format_url
      rw [if_pos hu]
      unfold Url.join
      rw [if_pos hu]
      exact congrArg Url.toStr (Option.some.inj hf)
    · rw [if_neg hu] at hf
      exact absurd hf (by simp)
  refine ⟨habs u, hjoin, ?_⟩
  by_cases hu : u.head? = some '/'
  · rcases hj : c.base.join u with _ | f
    · unfold Url.join at hj
      rw [if_pos hu] at hj
      exact absurd hj (by simp)
    · have h3 := hjoin f hj
      have hsch : f.scheme = c.base.scheme := by
        unfold Url.join at hj
        rw [if_pos hu] at hj
        have h4 := Option.some.inj hj
        rw [← h4]
      rw [h3]
      refine habs _ (toStr_head_ne_slash f ?_ ?_)
      · rw [hsch]
        exact h1
      · rw [hsch]
        exact h2
  · rw [habs u hu, habs u hu]

/-- Witness for `format_url_idempotent`: on the seeded crawler, normalizing
`/a` twice equals normalizing it once, and an absolute URL is returned
unchanged. -/
theorem format_url_idempotent_witness :
    cexC1.format_url (cexC1.format_url strSlashA) = cexC1.format_url strSlashA ∧
    cexC1.format_url urlOther = urlOther :=
  ⟨(format_url_idempotent cexC1 (by decide) (by decide) strSlashA).2.2,
   (format_url_idempotent cexC1 (by decide) (by decide) urlOther).1 (by decide)⟩

/-! ### Round-tripping `Url.parse` on printed URLs -/

theorem breakScheme_append : ∀ (scheme rest : Str), ':' ∉ scheme →
    breakScheme (scheme ++ ':' :: '/' :: '/' :: rest) = some (scheme, rest)
  | [], rest, _ => rfl
  | c :: s, rest, h => by
    have hc : ¬(c = ':') := fun hh => h (List.mem_cons.mpr (Or.inl hh.symm))
    have ihh := breakScheme_append s rest (fun hm => h (List.mem_cons_of_mem c hm))
    rw [List.cons_append]
    rw [show breakScheme (c :: (s ++ ':' :: '/' :: '/' :: rest)) =
      (if c = ':' ∧ (s ++ ':' :: '/' :: '/' :: rest).take 2 = ['/', '/'] then
        some (([] : Str), (s ++ ':' :: '/' :: '/' :: rest).drop 2)
      else
        match breakScheme (s ++ ':' :: '/' :: '/' :: rest) with
        | none => none
        | some (a, b) => some (c :: a, b)) from rfl]
    rw [if_neg (fun hand => hc hand.1), ihh]

theorem parse_wf (s : Str) (u : Url) (h : Url.parse s = .ok u) : UrlWF u := by
  unfold Url.parse at h
  rcases hb : breakScheme s with _ | ⟨scheme, rest⟩ <;> simp only [hb] at h
  · exact absurd h (by simp)
  · by_cases hg : (scheme.isEmpty || scheme.any fun c => c == ':' || c == '/') = true
    · rw [if_pos hg] at h
      exact absurd h (by simp)
    · rw [if_neg hg] at h
      by_cases hh : rest.takeWhile (fun c => !(isPathDelim c)) = []
      · rw [if_pos hh] at h
        exact absurd h (by simp)
      · rw [if_neg hh] at h
        have hu : u = { scheme := scheme,
                        host := rest.takeWhile (fun c => !(isPathDelim c)),
                        path := pathPart (rest.dropWhile (fun c => !(isPathDelim c))),
                        query := queryPart (rest.dropWhile (fun c => !(isPathDelim c))),
                        fragment := fragPart (rest.dropWhile (fun c => !(isPathDelim c))) } :=
          (Except.ok.inj h).symm
        subst hu
        simp only [Bool.or_eq_true, not_or, Bool.not_eq_true] at hg
        refine ⟨?_, ?_, ?_, ?_, ?_, ?_⟩
        · show scheme ≠ []
          intro hs0
          rw [hs0] at hg
          simp at hg
        · show ∀ c ∈ scheme, (c == ':' || c == '/') = false
          intro c hc
          have h7 := List.any_eq_false.mp hg.2 c hc
          cases h8 : (c == ':' || c == '/')
          · rfl
          · exact absurd h8 h7
        · show rest.takeWhile (fun c => !(isPathDelim c)) ≠ []
          exact hh
        · show ∀ c ∈ rest.takeWhile (fun c => !(isPathDelim c)), isPathDelim c = false
          intro c hc
          have h7 := List.mem_takeWhile_imp hc
          simp at h7
          exact h7
        · show (pathPart (rest.dropWhile (fun c => !(isPathDelim c)))).head? = some '/'
          apply pathPart_head
          intro x hx
          have h7 := dropWhile_head_false _ _ _ hx
          simp at h7
          exact h7
        · show ∀ c ∈ pathPart (rest.dropWhile (fun c => !(isPathDelim c))), isQF c = false
          exact pathPart_ok _

theorem parse_toStr (u : Url) (hwf : UrlWF u) (hq : u.query = none)
    (hf : u.fragment = none) : Url.parse u.toStr = .ok u := by
  have htos : u.toStr = u.scheme ++ ':' :: '/' :: '/' :: (u.host ++ u.path) := by
    unfold Url.toStr
    rw [hq, hf]
    simp
  have hcolon : ':' ∉ u.scheme := by
    intro hm
    have h7 := hwf.scheme_ok ':' hm
    simp at h7
  have hpne : u.path ≠ [] := by
    intro h0
    have hph := hwf.path_head
    rw [h0] at hph
    simp at hph
  rw [htos]
  unfold Url.parse
  simp only [breakScheme_append u.scheme (u.host ++ u.path) hcolon]
  have hie : u.scheme.isEmpty = false := by
    cases hs : u.scheme.isEmpty
    · rfl
    · rw [List.isEmpty_iff] at hs
      exact absurd hs hwf.scheme_ne
  have hany : (u.scheme.any fun c => c == ':' || c == '/') = false := by
    cases ha : u.scheme.any fun c => c == ':' || c == '/'
    · rfl
    · obtain ⟨x, hx, hpx⟩ := List.any_eq_true.mp ha
      rw [hwf.scheme_ok x hx] at hpx
      exact absurd hpx (by simp)
  rw [if_neg (by rw [hie, hany]; simp)]
  have hsplit := takeWhile_append_all (fun c => !(isPathDelim c)) u.host u.path
    (fun x hx => by
      show (!(isPathDelim x)) = true
      rw [hwf.host_ok x hx]
      rfl)
    (fun x hx => by
      show (!(isPathDelim x)) = false
      have h9 : x = '/' := by
        rw [hwf.path_head] at hx
        exact (Option.some.inj hx).symm
      rw [h9]
      rfl)
  rw [hsplit.1, hsplit.2]
  rw [if_neg hwf.host_ne]
  rw [pathPart_self u.path hpne hwf.path_ok]
  rw [queryPart_none u.path hwf.path_ok]
  rw [fragPart_none u.path (fun c hc => by
    have h8 := hwf.path_ok c hc
    unfold isQF at h8
    exact (Bool.or_eq_false_iff.mp h8).2)]
  have hrec : ({ scheme := u.scheme, host := u.host, path := u.path,
                 query := none, fragment := none } : Url) = u := by
    obtain ⟨s1, h1, p1, q1, f1⟩ := u
    dsimp only at hq hf ⊢
    rw [hq, hf]
  rw [hrec]

/-! ### Claim C10 -/

/-- C10: for every parsable entrypoint URL, `Crawler::new` queues only the
path component of the seed — any query string or fragment is silently
discarded — and after construction the frontier holds exactly one element,
the seed's path resolved against the base, while the ledger holds exactly
that key with `{count := 1, status := 0}`. -/
theorem new_seed_admission (opts : Opts) (url : Url)
    (h : Url.parse opts.entrypoint = .ok url) :
    Crawler.new opts =
      .ok { base := url, opts := opts,
            pending := [Url.toStr { url with query := none, fragment := none }],
            responses := [(Url.toStr { url with query := none, fragment := none },
              { count := 1, status := 0 })] } := by
  have hwf := parse_wf opts.entrypoint url h
  have hpne : url.path ≠ [] := by
    intro h0
    have hph := hwf.path_head
    rw [h0] at hph
    simp at hph
  have hstrip : ({ url with path := pathPart url.path, query := queryPart url.path,
                              fragment := fragPart url.path } : Url) =
      { url with query := none, fragment := none } := by
    rw [pathPart_self url.path hpne hwf.path_ok]
    rw [queryPart_none url.path hwf.path_ok]
    rw [fragPart_none url.path (fun c hc => by
      have h8 := hwf.path_ok c hc
      unfold isQF at h8
      exact (Bool.or_eq_false_iff.mp h8).2)]
  have hwf2 : UrlWF { url with query := none, fragment := none } :=
    ⟨hwf.scheme_ne, hwf.scheme_ok, hwf.host_ne, hwf.host_ok,
     hwf.path_head, hwf.path_ok⟩
  have hparse2 : Url.parse (Url.toStr { url with query := none, fragment := none }) =
      .ok { url with query := none, fragment := none } :=
    parse_toStr _ hwf2 rfl rfl
  have hformat : (initialCrawler opts url).format_url url.path =
      Url.toStr { url with query := none, fragment := none } := by
    unfold Crawler.format_url initialCrawler
    rw [if_pos hwf.path_head]
    dsimp only
    rw [show Url.join url url.path =
      some { url with path := pathPart url.path, query := queryPart url.path,
                      fragment := fragPart url.path } from by
        unfold Url.join
        rw [if_pos hwf.path_head]]
    rw [hstrip]
  have hcap : ¬(0 < (initialCrawler opts url).opts.limit ∧
      (initialCrawler opts url).opts.limit ≤
        (initialCrawler opts url).responses.length) := by
    intro hcc
    have h0 : (initialCrawler opts url).responses.length = 0 := rfl
    omega
  have hlook : lookupResp (initialCrawler opts url).responses
      ((initialCrawler opts url).format_url url.path) = none := rfl
  have hdec : parseDecision (initialCrawler opts url)
      ((initialCrawler opts url).format_url url.path) = false := by
    unfold parseDecision
    rw [hformat]
    simp only [hparse2]
    have hdom : (decide (Url.domain { url with query := none, fragment := none } ≠
        (initialCrawler opts url).base.domain)) = false := by
      have h5 : Url.domain { url with query := none, fragment := none } =
          (initialCrawler opts url).base.domain := rfl
      rw [h5]
      simp
    rw [hdom, Bool.and_false]
  have hexcl : (initialCrawler opts url).is_excluded
      ((initialCrawler opts url).format_url url.path) =
      (false, initialCrawler opts url) := by
    rw [is_excluded_fresh _ _ hcap hlook, hdec]
  have hqueue := queue_of_admitted _ _ url.path hexcl
  have hnew : Crawler.new opts =
      .ok (Crawler.queue (initialCrawler opts url) url.path) := by
    unfold Crawler.new
    rw [h]
    rfl
  rw [hnew, hqueue, hformat]
  rfl

/-- Witness for `new_seed_admission`: constructing the crawler from the seed
`https://example.com/x?q=1#f` queues exactly `https://example.com/x` — the
query and fragment are discarded — with one ledger record
`{count := 1, status := 0}`. -/
theorem new_seed_admission_witness :
    Crawler.new w10opts =
      .ok { base := w10url, opts := w10opts,
            pending := [Url.toStr { w10url with query := none, fragment := none }],
            responses := [(Url.toStr { w10url with query := none, fragment := none },
              { count := 1, status := 0 })] } :=
  new_seed_admission w10opts w10url rfl
